import Mathlib

/-!
Verification development for the orchestrator repository (task_executor.py,
improvement_engine.py).  Python source constructs are shallowly embedded:

* Python `str` values that the claims inspect character-by-character are
  embedded as `List Char` (Python strings are character sequences); plain
  status labels and names are embedded as Lean `String`.
* Database tables are embedded as lists of rows; the PostgREST query
  combinators used by the source (`eq`, `order desc`, `limit`, `in_`, `gte`)
  are embedded as `List.filter`, `List.insertionSort`, `List.take`,
  membership filtering and an integer comparison respectively.
* Fallible external actions (subprocess spawn, git commands, store inserts)
  are embedded as explicit outcome parameters, and the side effects a
  function performs are collected into an explicit event trace.
* Numeric scores (Python int/float) are embedded as `Rat`; timestamps as
  `Int` (seconds).
-/

/-! ## Dispatcher (task_executor.py, class ParallelTaskExecutor)

`running_projects` is a dict keyed by project id; only its key set matters
for the scheduling decisions, so the state is embedded as the list of keys
(most recently registered first).  `TaskExecutor.__init__` constructs
`ParallelTaskExecutor(max_concurrent=3)`.
-/

def maxConcurrentRuns : Nat := 3

/-- `ParallelTaskExecutor.can_start_task`: refuse when the project is already
registered, or when the number of registered projects has reached the cap. -/
def can_start_task (running : List String) (max_concurrent : Nat) (project_id : String) : Bool :=
  if project_id ∈ running then false
  else if max_concurrent ≤ running.length then false
  else true

/-- `ParallelTaskExecutor.register_task`: dict assignment
`running_projects[project_id] = {...}` — the key set gains `project_id`
(unchanged if already present). -/
def register_task (running : List String) (project_id : String) : List String :=
  if project_id ∈ running then running else project_id :: running

/-- `ParallelTaskExecutor.unregister_task`: `if project_id in running_projects:
del running_projects[project_id]`. -/
def unregister_task (running : List String) (project_id : String) : List String :=
  if project_id ∈ running then running.erase project_id else running

theorem can_start_task_iff (running : List String) (m : Nat) (p : String) :
    can_start_task running m p = true ↔ p ∉ running ∧ running.length < m := by
  unfold can_start_task
  split
  · rename_i hmem
    simp [hmem]
  · split
    · rename_i hmem hlen
      simp [hmem]
      omega
    · rename_i hmem hlen
      simp [hmem]
      omega

/-- Justification for modelling check-then-register as one step: between the
dispatcher's `can_start_task` and `register_task` calls (two separate lock
acquisitions in `execute_task_async`) only workers' `unregister_task` calls
can interleave — registration happens only on the single polling thread —
and unregistration preserves a positive `can_start_task` verdict. -/
theorem can_start_task_of_unregister (running : List String) (m : Nat) (p q : String)
    (h : can_start_task running m p = true) :
    can_start_task (unregister_task running q) m p = true := by
  rw [can_start_task_iff] at h ⊢
  unfold unregister_task
  split
  · exact ⟨fun hc => h.1 (List.erase_subset q running hc),
      lt_of_le_of_lt (List.erase_sublist q running).length_le h.2⟩
  · exact h

/-- One scheduling transition of the dispatcher: either `execute_task_async`
admits a task (guarded by `can_start_task`, then `register_task`), or a
worker terminates (`finally: unregister_task` in `_execute_task_internal`). -/
inductive DispatcherStep : List String → List String → Prop
  | start (running : List String) (project_id : String)
      (h : can_start_task running maxConcurrentRuns project_id = true) :
      DispatcherStep running (register_task running project_id)
  | finish (running : List String) (project_id : String) :
      DispatcherStep running (unregister_task running project_id)

/-- Dispatcher states reachable from the initial empty registry
(`self.running_projects = {}`). -/
def DispatcherReachable (s : List String) : Prop :=
  Relation.ReflTransGen DispatcherStep [] s

theorem dispatcher_inv_step (s s' : List String)
    (hinv : s.Nodup ∧ s.length ≤ maxConcurrentRuns) (hstep : DispatcherStep s s') :
    s'.Nodup ∧ s'.length ≤ maxConcurrentRuns := by
  obtain ⟨hnd, hlen⟩ := hinv
  cases hstep with
  | start p h =>
    rw [can_start_task_iff] at h
    unfold register_task
    rw [if_neg h.1]
    refine ⟨List.nodup_cons.mpr ⟨h.1, hnd⟩, ?_⟩
    simp only [List.length_cons]
    omega
  | finish p =>
    unfold unregister_task
    split
    · exact ⟨hnd.erase p, le_trans (List.erase_sublist p s).length_le hlen⟩
    · exact ⟨hnd, hlen⟩

/-- C1: in every reachable dispatcher state, each project is registered at
most once (per-project mutual exclusion of runs) and at most
`max_concurrent_runs = 3` projects are registered (global cap);
`can_start_task` refuses duplicates and overflows, and every worker
unregisters its project on termination (the `finish` step). -/
theorem C1_dispatcher_serialization_and_cap (s : List String)
    (h : DispatcherReachable s) :
    (∀ project_id : String, s.count project_id ≤ 1) ∧ s.length ≤ maxConcurrentRuns := by
  have hinv : s.Nodup ∧ s.length ≤ maxConcurrentRuns := by
    induction h with
    | refl => exact ⟨List.nodup_nil, by simp [maxConcurrentRuns]⟩
    | tail _ hstep ih => exact dispatcher_inv_step _ _ ih hstep
  exact ⟨fun p => List.nodup_iff_count_le_one.mp hinv.1 p, hinv.2⟩

theorem C1_witness :
    (∀ project_id : String, (["beta", "alpha"] : List String).count project_id ≤ 1) ∧
      (["beta", "alpha"] : List String).length ≤ maxConcurrentRuns :=
  C1_dispatcher_serialization_and_cap ["beta", "alpha"]
    (Relation.ReflTransGen.tail
      (Relation.ReflTransGen.tail Relation.ReflTransGen.refl
        (DispatcherStep.start [] "alpha" (by decide)))
      (DispatcherStep.start ["alpha"] "beta" (by decide)))

/-! ## Run executor (task_executor.py, class TaskExecutor)

`execute_with_claude_code` / `_complete_run_record` / `_execute_task_internal`
are embedded with the external world (filesystem, subprocess, store) given as
explicit outcome parameters, and the store/subprocess side effects of
`_execute_task_internal` collected into an event trace.
-/

/-- Result of `subprocess.run(['bash','-c',claude_cmd], ..., timeout=600)`:
normal return with an exit code and captured stdout/stderr, a
`subprocess.TimeoutExpired`, or any other exception (spawn/OS error). -/
inductive SubprocessOutcome where
  | exited (code : Int) (stdout stderr : List Char)
  | timedOut
  | spawnError (msg : List Char)
deriving DecidableEq

/-- External facts `execute_with_claude_code` depends on: whether the
project directory exists, its path (for the error message), and what the
assistant subprocess does if started. -/
structure ExecEnv where
  dirExists : Bool
  projectDir : List Char
  outcome : SubprocessOutcome
deriving DecidableEq

/-- Return value of `execute_with_claude_code` — the `(success, exit_code,
output)` tuple — extended with the ghost field `spawned` recording whether
the assistant subprocess invocation was reached (the code itself does not
return this; it is needed to state that some paths never start the
subprocess). -/
structure ExecResult where
  success : Bool
  exit_code : Int
  output : List Char
  spawned : Bool
deriving DecidableEq

def dirMissingMsg (projectDir : List Char) : List Char :=
  "プロジェクトディレクトリが見つかりません: ".data ++ projectDir

def timeoutMsg : List Char := "タイムアウト（10分）".data

def spawnErrorMsg (msg : List Char) : List Char := "実行エラー: ".data ++ msg

/-- `TaskExecutor.execute_with_claude_code`: missing project directory
returns `(False, -1, error_msg)` before the subprocess is spawned; a normal
subprocess return yields `(returncode == 0, returncode, stdout + stderr)`;
`subprocess.TimeoutExpired` yields `(False, -2, ...)`; any other exception
yields `(False, -3, ...)`. -/
def execute_with_claude_code (env : ExecEnv) : ExecResult :=
  if env.dirExists = false then
    { success := false, exit_code := -1, output := dirMissingMsg env.projectDir,
      spawned := false }
  else
    match env.outcome with
    | .exited code stdout stderr =>
        if code = 0 then
          { success := true, exit_code := code, output := stdout ++ stderr, spawned := true }
        else
          { success := false, exit_code := code, output := stdout ++ stderr, spawned := true }
    | .timedOut =>
        { success := false, exit_code := -2, output := timeoutMsg, spawned := true }
    | .spawnError msg =>
        { success := false, exit_code := -3, output := spawnErrorMsg msg, spawned := true }

/-- The `update_data` dict written to `orch_runs` by `_complete_run_record`
(the fields the claims are about). -/
structure RunUpdate where
  status : String
  exit_code : Int
  stdout_preview : List Char
  duration_seconds : Nat
deriving DecidableEq

/-- `TaskExecutor._complete_run_record`: status is `'completed' if success
else 'failed'`; the preview is `output[:5000] if output else ""`. -/
def _complete_run_record (success : Bool) (exit_code : Int) (output : List Char)
    (duration_seconds : Nat) : RunUpdate :=
  { status := if success then "completed" else "failed"
    exit_code := exit_code
    stdout_preview := if output.isEmpty then [] else output.take 5000
    duration_seconds := duration_seconds }

/-- C2: for a run whose subprocess invocation returns, the run record update
has terminal status `completed` iff the exit code is 0 and `failed`
otherwise; a wall-clock timeout yields `failed` with sentinel exit code -2
and a spawn/OS error yields `failed` with sentinel -3. -/
theorem C2_run_terminal_status (env : ExecEnv) (duration : Nat)
    (hdir : env.dirExists = true) :
    (∀ code stdout stderr, env.outcome = .exited code stdout stderr →
      (let r := execute_with_claude_code env
       let u := _complete_run_record r.success r.exit_code r.output duration
       u.exit_code = code ∧ (u.status = "completed" ↔ code = 0) ∧
         (u.status = "failed" ↔ code ≠ 0))) ∧
    (env.outcome = .timedOut →
      (let r := execute_with_claude_code env
       let u := _complete_run_record r.success r.exit_code r.output duration
       u.status = "failed" ∧ u.exit_code = -2)) ∧
    (∀ msg, env.outcome = .spawnError msg →
      (let r := execute_with_claude_code env
       let u := _complete_run_record r.success r.exit_code r.output duration
       u.status = "failed" ∧ u.exit_code = -3)) := by
  refine ⟨?_, ?_, ?_⟩
  · intro code stdout stderr hout
    simp only [execute_with_claude_code, _complete_run_record, hdir, hout]
    by_cases hc : code = 0
    · simp [hc]
    · simp [hc]
  · intro hout
    simp [execute_with_claude_code, _complete_run_record, hdir, hout]
  · intro msg hout
    simp [execute_with_claude_code, _complete_run_record, hdir, hout]

theorem C2_witness :
    ((⟨true, "proj".data, .exited 0 "ok".data []⟩ : ExecEnv).dirExists = true) ∧
    (let r := execute_with_claude_code ⟨true, "proj".data, .exited 0 "ok".data []⟩
     let u := _complete_run_record r.success r.exit_code r.output 7
     u.exit_code = 0 ∧ (u.status = "completed" ↔ (0 : Int) = 0) ∧
       (u.status = "failed" ↔ (0 : Int) ≠ 0)) :=
  ⟨rfl, (C2_run_terminal_status ⟨true, "proj".data, .exited 0 "ok".data []⟩ 7 rfl).1
    0 "ok".data [] rfl⟩

/-- C9: the stored `stdout_preview` is exactly the first at-most-5000
characters of the captured output, hence never longer than 5000. -/
theorem C9_stdout_preview_bound (success : Bool) (exit_code : Int)
    (output : List Char) (duration : Nat) :
    (_complete_run_record success exit_code output duration).stdout_preview =
        output.take 5000 ∧
      (_complete_run_record success exit_code output duration).stdout_preview.length
        ≤ 5000 := by
  have hpre : (_complete_run_record success exit_code output duration).stdout_preview =
      output.take 5000 := by
    simp only [_complete_run_record]
    split
    · rename_i he
      rw [List.isEmpty_iff.mp he]
      rfl
    · rfl
  refine ⟨hpre, ?_⟩
  rw [hpre, List.length_take]
  omega

/-- C10: when the project's local directory is missing, the executor returns
failure with sentinel exit code -1 — distinct from the timeout sentinel -2
and the spawn-error sentinel -3 — carrying the error message as the run
output, and the assistant subprocess is never started. -/
theorem C10_missing_directory (env : ExecEnv) (h : env.dirExists = false) :
    execute_with_claude_code env =
      { success := false, exit_code := -1, output := dirMissingMsg env.projectDir,
        spawned := false } ∧
      ((-1 : Int) ≠ -2 ∧ (-1 : Int) ≠ -3) := by
  refine ⟨?_, by decide, by decide⟩
  simp [execute_with_claude_code, h]

theorem C10_witness :
    ((⟨false, "proj".data, .timedOut⟩ : ExecEnv).dirExists = false) ∧
    (execute_with_claude_code ⟨false, "proj".data, .timedOut⟩ =
      { success := false, exit_code := -1, output := dirMissingMsg "proj".data,
        spawned := false } ∧
      ((-1 : Int) ≠ -2 ∧ (-1 : Int) ≠ -3)) :=
  ⟨rfl, C10_missing_directory ⟨false, "proj".data, .timedOut⟩ rfl⟩

/-- Store and subprocess side effects of `_execute_task_internal`, in program
order. `taskStatus s` is a call to `update_task_status(task_id, s, ...)`;
`runStatusRunning` is the direct `orch_runs` update to 'running';
`spawn` is the start of the assistant subprocess inside
`execute_with_claude_code`; `runComplete s` is `_complete_run_record`
writing terminal status `s`. -/
inductive Event where
  | taskStatus (status : String)
  | runStatusRunning
  | spawn
  | runComplete (status : String)
  | saveToolCalls
  | selfEval
  | unregister
deriving DecidableEq

/-- `TaskExecutor._execute_task_internal`, as the sequence of effects it
performs.  `run_id` is the result of `_create_run_record` (`none` when the
run insert failed).  The code updates the task to 'in_progress'
unconditionally, guards only the `orch_runs` updates behind `if run_id:`,
always calls `execute_with_claude_code`, and always writes the terminal
task status; the `finally` block unregisters the project. -/
def _execute_task_internal (run_id : Option Nat) (env : ExecEnv) : List Event :=
  let r := execute_with_claude_code env
  [Event.taskStatus "in_progress"]
    ++ (match run_id with
        | some _ => [Event.runStatusRunning]
        | none => [])
    ++ (if r.spawned then [Event.spawn] else [])
    ++ (match run_id with
        | some _ => [Event.runComplete (if r.success then "completed" else "failed"),
                     Event.saveToolCalls, Event.selfEval]
        | none => [])
    ++ [Event.taskStatus (if r.success then "done" else "failed")]
    ++ [Event.unregister]

def envRunInsertFailed : ExecEnv :=
  { dirExists := true, projectDir := "proj".data, outcome := .exited 0 "ok".data [] }

/-- C3 counterexample: with the run insert failing (`run_id = none`) and the
project directory present, `_execute_task_internal` still spawns the
assistant subprocess and still writes task status updates — refuting the
claim that the dispatch is aborted with the task left 'pending'. -/
theorem C3_counterexample :
    ¬ (Event.spawn ∉ _execute_task_internal none envRunInsertFailed ∧
       ∀ s : String, Event.taskStatus s ∉ _execute_task_internal none envRunInsertFailed) := by
  intro h
  exact h.2 "in_progress" (by decide)

/-- C3 amended: when the run insert fails, only the `orch_runs`-side writes
are skipped — no run-record completion, tool-call save, self-evaluation or
run-status update happens — but the dispatch is not aborted: the task is
set to 'in_progress', the assistant subprocess is spawned whenever the
project directory exists, and a terminal task status ('done' or 'failed')
is written. -/
theorem C3_amended_run_insert_failure (env : ExecEnv) :
    (∀ s : String, Event.runComplete s ∉ _execute_task_internal none env) ∧
    Event.saveToolCalls ∉ _execute_task_internal none env ∧
    Event.selfEval ∉ _execute_task_internal none env ∧
    Event.runStatusRunning ∉ _execute_task_internal none env ∧
    Event.taskStatus "in_progress" ∈ _execute_task_internal none env ∧
    (Event.spawn ∈ _execute_task_internal none env ↔ env.dirExists = true) ∧
    (Event.taskStatus "done" ∈ _execute_task_internal none env ∨
      Event.taskStatus "failed" ∈ _execute_task_internal none env) := by
  unfold _execute_task_internal
  by_cases hdir : env.dirExists = true
  · have hsp : (execute_with_claude_code env).spawned = true := by
      unfold execute_with_claude_code
      rw [if_neg (by simp [hdir])]
      cases env.outcome with
      | exited code stdout stderr =>
        by_cases hc : code = 0
        · simp [hc]
        · simp [hc]
      | timedOut => rfl
      | spawnError msg => rfl
    by_cases hs : (execute_with_claude_code env).success = true
    · simp [hsp, hs, hdir]
    · simp [hsp, hs, hdir]
  · have hdir' : env.dirExists = false := by
      cases h : env.dirExists
      · rfl
      · exact absurd h hdir
    have hr : execute_with_claude_code env =
        { success := false, exit_code := -1, output := dirMissingMsg env.projectDir,
          spawned := false } := by
      simp [execute_with_claude_code, hdir']
    simp [hr, hdir']

/-! ## Tool-call parser (task_executor.py, class ToolCallParser)

`ToolCallParser.parse` scans the output with `re.finditer(pattern, output,
re.MULTILINE | re.IGNORECASE)` over a fixed table of patterns.  The regexes
are embedded as token lists (`Pat`) and evaluated by an executable matcher.
Embedding notes, where the matcher is an approximation of Python `re`:

* character classes `\s` and `[:\s]` are matched max-munch without
  backtracking into the following capture group;
* `.*` is matched by taking the leftmost continuation (Python is greedy and
  takes the rightmost); this is observationally equal whenever the rest of
  the pattern matches at most once on the line;
* `(.+?)(?:\n|$)` and `([^\n]+)` both capture the remainder of the line;
* successive matches of one pattern are non-overlapping, continuing after
  the end of the previous match, as in `re.finditer`.
None of the theorems below depend on the approximated corners: the generic
theorem holds for any match results, and the concrete counterexample text
exercises only literal-head line patterns.
-/

/-- Python `\s` (ASCII range, as relevant here). -/
def isPyWhitespace (c : Char) : Bool :=
  c = ' ' || c = '\t' || c = '\n' || c = '\r' || c = '\x0b' || c = '\x0c'

/-- The character class `[:\s]`. -/
def isColonOrWs (c : Char) : Bool :=
  c = ':' || isPyWhitespace c

/-- ASCII lower-casing, for `re.IGNORECASE`. -/
def lowerChar (c : Char) : Char :=
  if 'A' ≤ c ∧ c ≤ 'Z' then Char.ofNat (c.toNat + 32) else c

def charEqCI (a b : Char) : Bool :=
  lowerChar a = lowerChar b

/-- Case-insensitive literal prefix test. -/
def startsWithCI : List Char → List Char → Bool
  | [], _ => true
  | _ :: _, [] => false
  | p :: ps, c :: cs => charEqCI p c && startsWithCI ps cs

/-- Tokenized regex fragments used by the pattern table. -/
inductive Pat where
  | lit (s : List Char)
  | ws
  | colonWs
  | anyStar
  | capLine
  | capLazyLine
  | capNoQuote
  | capNoSpace
deriving DecidableEq

/-- Anchored match of a token list at the head of the text; returns the
single capture group and the text following the match.  The first argument
is recursion fuel: every recursive call decrements it, and along any call
path each step either retires one token or advances one character, so any
fuel larger than the token count plus the text length never runs out (the
wrapper `matchAt` supplies such a value; structural recursion on the fuel
keeps the function kernel-reducible). -/
def matchAtFuel : Nat -> List Pat -> List Char -> Option (List Char × List Char)
  | 0, _, _ => none
  | Nat.succ _, [], cs => some ([], cs)
  | Nat.succ fuel, Pat.lit s :: ps, cs =>
      if startsWithCI s cs then matchAtFuel fuel ps (cs.drop s.length) else none
  | Nat.succ fuel, Pat.ws :: ps, cs =>
      let n := (cs.takeWhile isPyWhitespace).length
      if n = 0 then none else matchAtFuel fuel ps (cs.drop n)
  | Nat.succ fuel, Pat.colonWs :: ps, cs =>
      let n := (cs.takeWhile isColonOrWs).length
      if n = 0 then none else matchAtFuel fuel ps (cs.drop n)
  | Nat.succ fuel, Pat.anyStar :: ps, cs =>
      match matchAtFuel fuel ps cs with
      | some r => some r
      | none =>
          match cs with
          | [] => none
          | c :: rest =>
              if c = '\n' then none else matchAtFuel fuel (Pat.anyStar :: ps) rest
  | Nat.succ fuel, Pat.capLine :: ps, cs =>
      let cap := cs.takeWhile (fun c => !(c = '\n'))
      if cap.isEmpty then none
      else
        match matchAtFuel fuel ps (cs.drop cap.length) with
        | some (_, rest) => some (cap, rest)
        | none => none
  | Nat.succ fuel, Pat.capLazyLine :: ps, cs =>
      let cap := cs.takeWhile (fun c => !(c = '\n'))
      if cap.isEmpty then none
      else
        match matchAtFuel fuel ps ((cs.drop cap.length).drop 1) with
        | some (_, rest) => some (cap, rest)
        | none => none
  | Nat.succ fuel, Pat.capNoQuote :: ps, cs =>
      let cs1 := if startsWithCI ['"'] cs then cs.drop 1 else cs
      let cap := cs1.takeWhile (fun c => !(c = '"') && !(c = '\n'))
      if cap.isEmpty then none
      else
        match matchAtFuel fuel ps (cs1.drop cap.length) with
        | some (_, rest) => some (cap, rest)
        | none => none
  | Nat.succ fuel, Pat.capNoSpace :: ps, cs =>
      let cap := cs.takeWhile (fun c => !isPyWhitespace c)
      if cap.isEmpty then none
      else
        match matchAtFuel fuel ps (cs.drop cap.length) with
        | some (_, rest) => some (cap, rest)
        | none => none

def matchAt (pats : List Pat) (cs : List Char) : Option (List Char × List Char) :=
  matchAtFuel (pats.length + cs.length + 2) pats cs

/-- All non-overlapping matches of a pattern, with their start positions, in
text order (`re.finditer`): scan left to right, and on a match continue
after its end.  Fuel as in `matchAtFuel`; each step advances at least one
character, so `cs.length + 1` suffices. -/
def findAllFuel : Nat -> List Pat -> List Char -> Nat -> List (Nat × List Char)
  | 0, _, _, _ => []
  | Nat.succ fuel, p, cs, pos =>
      match cs with
      | [] => []
      | c :: rest =>
          match matchAt p (c :: rest) with
          | some (cap, after) =>
              if after.length < rest.length + 1 then
                (pos, cap) :: findAllFuel fuel p after (pos + (rest.length + 1 - after.length))
              else
                (pos, cap) :: findAllFuel fuel p rest (pos + 1)
          | none => findAllFuel fuel p rest (pos + 1)

def findAll (p : List Pat) (cs : List Char) (pos : Nat) : List (Nat × List Char) :=
  findAllFuel (cs.length + 1) p cs pos

/-- `ToolCallParser.PATTERNS`, in dict insertion order.  Each token list is
the transliteration of one regex from the source table; the original regex
is recoverable by reading the tokens back:
lit s ~ literal s, ws ~ one-or-more whitespace, colonWs ~ one-or-more of
colon-or-whitespace, anyStar ~ dot-star, capLine ~ capture rest of line,
capLazyLine ~ lazy capture up to newline-or-end, capNoQuote ~ optionally
quoted capture of non-quote non-newline text, capNoSpace ~ capture of
non-whitespace text. -/
def PATTERNS : List (String × List (List Pat)) :=
  [("Read",
    [[Pat.lit "Reading file".data, Pat.colonWs, Pat.capLine],
     [Pat.lit "Read".data, Pat.ws, Pat.lit "tool".data, Pat.anyStar,
      Pat.lit "file_path".data, Pat.colonWs, Pat.capLine],
     [Pat.lit "cat".data, Pat.ws, Pat.lit "-n".data, Pat.ws, Pat.capNoSpace]]),
   ("Write",
    [[Pat.lit "Writing to file".data, Pat.colonWs, Pat.capLine],
     [Pat.lit "Write".data, Pat.ws, Pat.lit "tool".data, Pat.anyStar,
      Pat.lit "file_path".data, Pat.colonWs, Pat.capLine],
     [Pat.lit "Created file".data, Pat.colonWs, Pat.capLine]]),
   ("Edit",
    [[Pat.lit "Editing file".data, Pat.colonWs, Pat.capLine],
     [Pat.lit "Edit".data, Pat.ws, Pat.lit "tool".data, Pat.anyStar,
      Pat.lit "file_path".data, Pat.colonWs, Pat.capLine],
     [Pat.lit "Modified file".data, Pat.colonWs, Pat.capLine]]),
   ("Bash",
    [[Pat.lit "Running command".data, Pat.colonWs, Pat.capLazyLine],
     [Pat.lit "Bash".data, Pat.ws, Pat.lit "tool".data, Pat.anyStar,
      Pat.lit "command".data, Pat.colonWs, Pat.capLazyLine],
     [Pat.lit "Executing".data, Pat.colonWs, Pat.capLazyLine]]),
   ("Glob",
    [[Pat.lit "Searching for files matching".data, Pat.colonWs, Pat.capLine],
     [Pat.lit "Glob".data, Pat.ws, Pat.lit "tool".data, Pat.anyStar,
      Pat.lit "pattern".data, Pat.colonWs, Pat.capLine],
     [Pat.lit "Finding files".data, Pat.colonWs, Pat.capLine]]),
   ("Grep",
    [[Pat.lit "Searching for pattern".data, Pat.colonWs, Pat.capLine],
     [Pat.lit "Grep".data, Pat.ws, Pat.lit "tool".data, Pat.anyStar,
      Pat.lit "pattern".data, Pat.colonWs, Pat.capLine],
     [Pat.lit "Grepping for".data, Pat.colonWs, Pat.capLine]]),
   ("Skill",
    [[Pat.lit "Skill".data, Pat.ws, Pat.lit "tool".data, Pat.anyStar,
      Pat.lit "skill".data, Pat.colonWs, Pat.capNoQuote],
     [Pat.lit "Using skill".data, Pat.colonWs, Pat.capLine],
     [Pat.lit "Invoking skill".data, Pat.colonWs, Pat.capLine]]),
   ("Task",
    [[Pat.lit "Task".data, Pat.ws, Pat.lit "tool".data, Pat.anyStar,
      Pat.lit "subagent_type".data, Pat.colonWs, Pat.capNoQuote],
     [Pat.lit "Launching agent".data, Pat.colonWs, Pat.capLine],
     [Pat.lit "Starting".data, Pat.anyStar, Pat.lit "agent".data, Pat.anyStar,
      Pat.colonWs, Pat.capLine]])]

/-- Python `str.strip()`. -/
def pyStrip (cs : List Char) : List Char :=
  ((cs.dropWhile isPyWhitespace).reverse.dropWhile isPyWhitespace).reverse

/-- The parameter key chosen per tool kind in `ToolCallParser.parse`
(`file_path` for Read/Write/Edit, `command` for Bash, `pattern` for
Glob/Grep, `skill` for Skill, `subagent_type` for Task; an unknown tool
name would leave the parameters dict empty, encoded by the empty key). -/
def paramKey (tool_name : String) : String :=
  if tool_name = "Read" ∨ tool_name = "Write" ∨ tool_name = "Edit" then "file_path"
  else if tool_name = "Bash" then "command"
  else if tool_name = "Glob" then "pattern"
  else if tool_name = "Grep" then "pattern"
  else if tool_name = "Skill" then "skill"
  else if tool_name = "Task" then "subagent_type"
  else ""

/-- `ToolCallParser._categorize_tool`. -/
def categorizeTool (tool_name : String) : String :=
  if tool_name = "Read" ∨ tool_name = "Write" ∨ tool_name = "Edit" then "file_operation"
  else if tool_name = "Bash" then "command_execution"
  else if tool_name = "Glob" ∨ tool_name = "Grep" then "search"
  else if tool_name = "Skill" then "skill_usage"
  else if tool_name = "Task" then "agent_invocation"
  else "other"

/-- One entry of the list returned by `ToolCallParser.parse`, extended with
the ghost field `matchPos` recording where in the output the regex match
started (the code does not store this; it is needed to state how list order
relates to text order). -/
structure ToolCall where
  tool_name : String
  param_key : String
  param_value : List Char
  success : Bool
  sequence_number : Nat
  category : String
  matchPos : Nat
deriving DecidableEq

/-- The `(tool_name, match)` stream in the order the nested loops of
`ToolCallParser.parse` discover it: outer loop over `PATTERNS` entries,
middle loop over each tool's pattern list, inner loop over the finditer
matches of one pattern. -/
def rawMatches (output : List Char) : List (String × Nat × List Char) :=
  (PATTERNS.map (fun tp =>
    (tp.2.map (fun p => (findAll p output 0).map (fun m => (tp.1, m.1, m.2)))).flatten)).flatten

/-- `ToolCallParser.parse`: the running `sequence_number` counter, which the
source increments once per appended tool call, is the index of the call in
the result list, realized here by `enum`. -/
def ToolCallParser.parse (output : List Char) : List ToolCall :=
  (rawMatches output).enum.map (fun x =>
    { tool_name := x.2.1
      param_key := paramKey x.2.1
      param_value := pyStrip x.2.2.2
      success := true
      sequence_number := x.1
      category := categorizeTool x.2.1
      matchPos := x.2.2.1 })

/-- C4 amended: for every output, the k-th tool call carries
`sequence_number = k` — the sequence numbers are exactly 0, 1, 2, ... in
list order (hence monotonic within a run).  The list order is the pattern
table's discovery order, which does not in general follow the order of the
matches in the output text (see the counterexample). -/
theorem C4_amended_sequence_numbers (output : List Char) :
    (ToolCallParser.parse output).map ToolCall.sequence_number =
      List.range (ToolCallParser.parse output).length := by
  unfold ToolCallParser.parse
  rw [List.map_map, List.length_map, List.enum_length]
  exact List.enum_map_fst _

/-- The order property asserted by the claim: tool calls appear in the list
in the order their matches occur in the output text. -/
def TextOrdered (output : List Char) : Prop :=
  List.Sorted (· ≤ ·) ((ToolCallParser.parse output).map ToolCall.matchPos)

def demoOutput : List Char := "Executing: b\nReading file: a".data

/-- C4 counterexample: on `demoOutput` the Bash match starts at text
position 0 and the Read match at position 13, yet the parser emits the Read
call first (sequence_number 0, matchPos 13) and the Bash call second
(sequence_number 1, matchPos 0), because discovery order iterates the
pattern table before the text.  The claimed correspondence between list
order and text order fails. -/
instance (output : List Char) : Decidable (TextOrdered output) :=
  inferInstanceAs (Decidable (List.Sorted _ _))

theorem C4_counterexample : ¬ TextOrdered demoOutput := by decide

/-! ## Improvement engine triggers (improvement_engine.py)

The store tables `orch_runs` and `orch_evaluations` are embedded as row
lists; the PostgREST queries issued by `_check_consecutive_failures` /
`_check_low_average_score` — filter by project, order by `created_at`
descending, limit N, and filter by a run-id set — are embedded by
`recentRuns` and `evalsForRunIds`.  `overall_score` is embedded as `Rat`
(the source holds Python numbers) and `created_at` as an integer
timestamp. -/

structure RunRow where
  id : Nat
  project_id : String
  status : String
  created_at : Int
deriving DecidableEq

structure EvalRow where
  run_id : Nat
  failure_category : Option String
  overall_score : Rat
deriving DecidableEq

structure Store where
  runs : List RunRow
  evals : List EvalRow
deriving DecidableEq

/-- `.order('created_at', desc=True)`. -/
def runsByCreatedDesc (rs : List RunRow) : List RunRow :=
  List.insertionSort (fun a b => b.created_at ≤ a.created_at) rs

/-- `.eq('project_id', pid).order('created_at', desc=True).limit(n)`. -/
def recentRuns (db : Store) (pid : String) (n : Nat) : List RunRow :=
  (runsByCreatedDesc (db.runs.filter (fun r => decide (r.project_id = pid)))).take n

/-- `.in_('run_id', run_ids)`. -/
def evalsForRunIds (db : Store) (ids : List Nat) : List EvalRow :=
  db.evals.filter (fun e => decide (e.run_id ∈ ids))

/-- The trigger dicts built by the two checks: `trigger_type` with its
`details` payload. -/
inductive Trigger where
  | consecutiveFailures (failure_category : String) (run_ids : List Nat) (count : Nat)
  | lowScore (average_score : Rat) (run_ids : List Nat) (scores : List Rat)
deriving DecidableEq

/-- `ImprovementEngine._check_consecutive_failures`.  The comprehension
`[e['failure_category'] for e in evaluations if e['failure_category']]`
keeps only truthy values, which drops both `None` and the empty string. -/
def _check_consecutive_failures (db : Store) (pid : String) : Option Trigger :=
  let runs := recentRuns db pid 10
  if runs.length < 3 then none
  else
    let recent_runs := runs.take 3
    if !(recent_runs.all (fun r => decide (r.status = "failed"))) then none
    else
      let run_ids := recent_runs.map RunRow.id
      let evaluations := evalsForRunIds db run_ids
      if evaluations.length < 3 then none
      else
        let categories := evaluations.filterMap (fun e =>
          match e.failure_category with
          | some c => if c = "" then none else some c
          | none => none)
        match categories with
        | c0 :: c1 :: c2 :: _ =>
            if c0 = c1 ∧ c1 = c2 then
              some (Trigger.consecutiveFailures c0 run_ids 3)
            else none
        | _ => none

/-- `ImprovementEngine._check_low_average_score`. -/
def _check_low_average_score (db : Store) (pid : String) : Option Trigger :=
  let runs := recentRuns db pid 5
  if runs.length < 5 then none
  else
    let run_ids := runs.map RunRow.id
    let evaluations := evalsForRunIds db run_ids
    if evaluations.length < 5 then none
    else
      let scores := evaluations.map EvalRow.overall_score
      let avg_score := scores.sum / (scores.length : Rat)
      if avg_score < 5 then some (Trigger.lowScore avg_score run_ids scores)
      else none

/-- `ImprovementEngine.check_triggers`: consecutive-failures first, then
low-score (first match wins). -/
def check_triggers (db : Store) (pid : String) : Option Trigger :=
  match _check_consecutive_failures db pid with
  | some t => some t
  | none => _check_low_average_score db pid

theorem recentRuns_map_id_nodup (db : Store) (pid : String) (n : Nat)
    (hR : (db.runs.map RunRow.id).Nodup) :
    ((recentRuns db pid n).map RunRow.id).Nodup := by
  unfold recentRuns runsByCreatedDesc
  have h1 : List.Sublist
      ((db.runs.filter (fun r => decide (r.project_id = pid))).map RunRow.id)
      (db.runs.map RunRow.id) := (List.filter_sublist db.runs).map RunRow.id
  have h2 := hR.sublist h1
  have h3 : List.Perm
      ((List.insertionSort (fun a b => b.created_at ≤ a.created_at)
        (db.runs.filter (fun r => decide (r.project_id = pid)))).map RunRow.id)
      ((db.runs.filter (fun r => decide (r.project_id = pid))).map RunRow.id) :=
    (List.perm_insertionSort _ _).map RunRow.id
  have h4 := h3.nodup_iff.mpr h2
  exact h4.sublist ((List.take_sublist n _).map RunRow.id)

theorem eval_run_id_inj (db : Store)
    (hE : (db.evals.map EvalRow.run_id).Nodup)
    (e1 e2 : EvalRow) (h1 : e1 ∈ db.evals) (h2 : e2 ∈ db.evals)
    (heq : e1.run_id = e2.run_id) : e1 = e2 := by
  have hE' : List.Pairwise (fun a b => a ≠ b) (db.evals.map EvalRow.run_id) := hE
  have hp : List.Pairwise (fun a b : EvalRow => a.run_id ≠ b.run_id) db.evals :=
    List.pairwise_map.mp hE'
  by_contra hne
  have hsym : Symmetric (fun a b : EvalRow => a.run_id ≠ b.run_id) :=
    fun a b h hb => h hb.symm
  exact hp.forall hsym h1 h2 hne heq

theorem mem_evalsForRunIds (db : Store) (ids : List Nat) (e : EvalRow) :
    e ∈ evalsForRunIds db ids ↔ e ∈ db.evals ∧ e.run_id ∈ ids := by
  unfold evalsForRunIds
  rw [List.mem_filter]
  simp

theorem evalsForRunIds_map_subset (db : Store) (ids : List Nat) :
    (evalsForRunIds db ids).map EvalRow.run_id ⊆ ids := by
  intro i hi
  obtain ⟨e, he, rfl⟩ := List.mem_map.mp hi
  exact ((mem_evalsForRunIds db ids e).mp he).2

theorem evalsForRunIds_map_nodup (db : Store) (ids : List Nat)
    (hE : (db.evals.map EvalRow.run_id).Nodup) :
    ((evalsForRunIds db ids).map EvalRow.run_id).Nodup :=
  hE.sublist ((List.filter_sublist db.evals).map EvalRow.run_id)

/-- At most one evaluation row per run id: the filtered evaluation list is
no longer than the id list. -/
theorem evalsForRunIds_length_le (db : Store) (ids : List Nat)
    (hE : (db.evals.map EvalRow.run_id).Nodup) :
    (evalsForRunIds db ids).length ≤ ids.length := by
  have h := (List.subperm_of_subset (evalsForRunIds_map_nodup db ids hE)
    (evalsForRunIds_map_subset db ids)).length_le
  simpa using h

/-- If the filtered evaluation list is at least as long as the (distinct)
id list, every id is covered by an evaluation row. -/
theorem evals_cover_of_length (db : Store) (ids : List Nat)
    (hE : (db.evals.map EvalRow.run_id).Nodup)
    (hlen : ids.length ≤ (evalsForRunIds db ids).length) :
    ∀ i ∈ ids, ∃ e ∈ evalsForRunIds db ids, e.run_id = i := by
  intro i hi
  have hperm : List.Perm ((evalsForRunIds db ids).map EvalRow.run_id) ids :=
    (List.subperm_of_subset (evalsForRunIds_map_nodup db ids hE)
      (evalsForRunIds_map_subset db ids)).perm_of_length_le (by simpa using hlen)
  obtain ⟨e, he, hei⟩ := List.mem_map.mp (hperm.mem_iff.mpr hi)
  exact ⟨e, he, hei⟩

/-- If every id is covered by an evaluation row, the filtered evaluation
list is at least as long as the (distinct) id list. -/
theorem length_le_of_evals_cover (db : Store) (ids : List Nat)
    (hids : ids.Nodup)
    (hcov : ∀ i ∈ ids, ∃ e ∈ db.evals, e.run_id = i) :
    ids.length ≤ (evalsForRunIds db ids).length := by
  have hsub : ids ⊆ (evalsForRunIds db ids).map EvalRow.run_id := by
    intro i hi
    obtain ⟨e, he, hei⟩ := hcov i hi
    exact List.mem_map.mpr
      ⟨e, (mem_evalsForRunIds db ids e).mpr ⟨he, by rw [hei]; exact hi⟩, hei⟩
  have h := (List.subperm_of_subset hids hsub).length_le
  simpa using h

theorem filterMap_length_eq_all_some (f : EvalRow → Option String) (l : List EvalRow)
    (h : (l.filterMap f).length = l.length) : ∀ a ∈ l, ∃ b, f a = some b := by
  induction l with
  | nil => intro a ha; cases ha
  | cons x xs ih =>
    intro a ha
    cases hfx : f x with
    | none =>
      exfalso
      have h1 : (List.filterMap f (x :: xs)).length = (List.filterMap f xs).length := by
        simp [List.filterMap_cons, hfx]
      have h2 := List.length_filterMap_le f xs
      rw [h1] at h
      simp at h
      omega
    | some b =>
      rcases List.mem_cons.mp ha with rfl | hmem
      · exact ⟨b, hfx⟩
      · refine ih ?_ a hmem
        have h1 : (List.filterMap f (x :: xs)).length = (List.filterMap f xs).length + 1 := by
          simp [List.filterMap_cons, hfx]
        rw [h1] at h
        simpa using h

theorem filterMap_const_some (f : EvalRow → Option String) (c : String) :
    ∀ l : List EvalRow, (∀ a ∈ l, f a = some c) →
      l.filterMap f = List.replicate l.length c
  | [], _ => rfl
  | x :: xs, h => by
    simp only [List.filterMap_cons, h x (List.mem_cons_self x xs), List.length_cons,
      List.replicate_succ]
    rw [filterMap_const_some f c xs (fun a ha => h a (List.mem_cons_of_mem x ha))]

/-- The truthiness filter of the comprehension in
`_check_consecutive_failures`. -/
theorem truthyCategory_eq (e : EvalRow) (h : e.failure_category ≠ some "") :
    (match e.failure_category with
      | some c => if c = "" then none else some c
      | none => none) = e.failure_category := by
  cases hc : e.failure_category with
  | none => rfl
  | some c =>
    have hcne : c ≠ "" := fun hc0 => h (by rw [hc, hc0])
    simp [hcne]


/-- C5: the consecutive-failures trigger fires iff the project's query
window holds at least 3 runs, the 3 most recent all failed, and each of the
three has an evaluation carrying one shared non-null failure category; the
payload is that category with the three run ids.  `hR`/`hE` are the store's
primary-key facts (unique run ids, at most one evaluation per run); `hCat`
excludes the empty-string category, which the documented category enum
never contains but which Python truthiness would drop. -/
theorem C5_consecutive_failures_iff (db : Store) (pid : String) (t : Trigger)
    (hR : (db.runs.map RunRow.id).Nodup)
    (hE : (db.evals.map EvalRow.run_id).Nodup)
    (hCat : ∀ e ∈ db.evals, e.failure_category ≠ some "") :
    _check_consecutive_failures db pid = some t ↔
      (3 ≤ (recentRuns db pid 10).length ∧
       (∀ r ∈ (recentRuns db pid 10).take 3, r.status = "failed") ∧
       ∃ c : String,
         (∀ i ∈ ((recentRuns db pid 10).take 3).map RunRow.id,
           ∃ e ∈ db.evals, e.run_id = i ∧ e.failure_category = some c) ∧
         t = Trigger.consecutiveFailures c
           (((recentRuns db pid 10).take 3).map RunRow.id) 3) := by
  have hidnd : (((recentRuns db pid 10).take 3).map RunRow.id).Nodup :=
    (recentRuns_map_id_nodup db pid 10 hR).sublist
      ((List.take_sublist 3 (recentRuns db pid 10)).map RunRow.id)
  constructor
  · intro h
    simp only [_check_consecutive_failures] at h
    split at h
    · exact Option.noConfusion h
    · rename_i hlen3
      split at h
      · exact Option.noConfusion h
      · rename_i hallb
        split at h
        · exact Option.noConfusion h
        · rename_i hevlen
          split at h
          · rename_i c0 c1 c2 rest hcats
            split at h
            · rename_i hcc
              have hidslen : (((recentRuns db pid 10).take 3).map RunRow.id).length = 3 := by
                rw [List.length_map, List.length_take]
                omega
              have hevle := evalsForRunIds_length_le db
                (((recentRuns db pid 10).take 3).map RunRow.id) hE
              have hev3 : (evalsForRunIds db
                  (((recentRuns db pid 10).take 3).map RunRow.id)).length = 3 := by
                omega
              have hcatle := List.length_filterMap_le
                (fun e : EvalRow => match e.failure_category with
                  | some c => if c = "" then none else some c
                  | none => none)
                (evalsForRunIds db (((recentRuns db pid 10).take 3).map RunRow.id))
              rw [hcats] at hcatle
              have hrest0 : rest = [] := by
                have : (c0 :: c1 :: c2 :: rest).length = 3 + rest.length := by
                  simp only [List.length_cons]
                  omega
                rw [this, hev3] at hcatle
                have : rest.length = 0 := by omega
                exact List.eq_nil_of_length_eq_zero this
              rw [hrest0] at hcats
              have hallsome := filterMap_length_eq_all_some
                (fun e : EvalRow => match e.failure_category with
                  | some c => if c = "" then none else some c
                  | none => none)
                (evalsForRunIds db (((recentRuns db pid 10).take 3).map RunRow.id))
                (by rw [hcats, hev3]; rfl)
              have hmemcat : ∀ e ∈ evalsForRunIds db
                  (((recentRuns db pid 10).take 3).map RunRow.id),
                  e.failure_category = some c0 := by
                intro e he
                obtain ⟨b, hb⟩ := hallsome e he
                have h1 : b ∈ (c0 :: c1 :: c2 :: []) := by
                  rw [← hcats]
                  exact List.mem_filterMap.mpr ⟨e, he, hb⟩
                simp only [List.mem_cons, List.not_mem_nil, or_false] at h1
                have hedb := ((mem_evalsForRunIds db _ e).mp he).1
                have hb' : e.failure_category = some b := by
                  rw [← truthyCategory_eq e (hCat e hedb)]
                  exact hb
                have hbc : b = c0 := by
                  rcases h1 with h1 | h1 | h1
                  · exact h1
                  · rw [h1, ← hcc.1]
                  · rw [h1, ← hcc.2, ← hcc.1]
                rw [hb', hbc]
              refine ⟨by omega, ?_, c0, ?_, (Option.some.inj h).symm⟩
              · intro r hr
                have hall : ((recentRuns db pid 10).take 3).all
                    (fun r => decide (r.status = "failed")) = true := by
                  revert hallb
                  cases ((recentRuns db pid 10).take 3).all
                    (fun r => decide (r.status = "failed"))
                  · intro hb; exact absurd rfl hb
                  · intro _; rfl
                exact of_decide_eq_true (List.all_eq_true.mp hall r hr)
              · intro i hi
                obtain ⟨e, he, hei⟩ := evals_cover_of_length db _ hE
                  (by rw [hidslen, hev3]) i hi
                exact ⟨e, ((mem_evalsForRunIds db _ e).mp he).1, hei, hmemcat e he⟩
            · exact Option.noConfusion h
          · exact Option.noConfusion h
  · rintro ⟨h3, hfail, c, hcov, ht⟩
    have hidslen : (((recentRuns db pid 10).take 3).map RunRow.id).length = 3 := by
      rw [List.length_map, List.length_take]
      omega
    have hcovweak : ∀ i ∈ ((recentRuns db pid 10).take 3).map RunRow.id,
        ∃ e ∈ db.evals, e.run_id = i := by
      intro i hi
      obtain ⟨e, he, hei, _⟩ := hcov i hi
      exact ⟨e, he, hei⟩
    have hge := length_le_of_evals_cover db _ hidnd hcovweak
    have hevle := evalsForRunIds_length_le db
      (((recentRuns db pid 10).take 3).map RunRow.id) hE
    have hev3 : (evalsForRunIds db
        (((recentRuns db pid 10).take 3).map RunRow.id)).length = 3 := by omega
    have hecat : ∀ e ∈ evalsForRunIds db
        (((recentRuns db pid 10).take 3).map RunRow.id),
        (fun e : EvalRow => match e.failure_category with
          | some c => if c = "" then none else some c
          | none => none) e = some c := by
      intro e he
      obtain ⟨hedb, hrun⟩ := (mem_evalsForRunIds db _ e).mp he
      obtain ⟨e2, he2db, he2run, he2cat⟩ := hcov e.run_id hrun
      have heq : e = e2 := eval_run_id_inj db hE e e2 hedb he2db he2run.symm
      show (match e.failure_category with
        | some c => if c = "" then none else some c
        | none => none) = some c
      rw [truthyCategory_eq e (hCat e hedb), heq, he2cat]
    have hcats := filterMap_const_some
      (fun e : EvalRow => match e.failure_category with
        | some c => if c = "" then none else some c
        | none => none)
      c _ hecat
    have hcats3 : (evalsForRunIds db
        (((recentRuns db pid 10).take 3).map RunRow.id)).filterMap
        (fun e : EvalRow => match e.failure_category with
          | some c => if c = "" then none else some c
          | none => none) = [c, c, c] := by
      rw [hcats, hev3]
      rfl
    have halltrue : ((recentRuns db pid 10).take 3).all
        (fun r => decide (r.status = "failed")) = true :=
      List.all_eq_true.mpr (fun r hr => decide_eq_true (hfail r hr))
    simp only [_check_consecutive_failures]
    rw [if_neg (by omega : ¬ (recentRuns db pid 10).length < 3)]
    rw [if_neg (by simp [halltrue])]
    rw [if_neg (by omega : ¬ (evalsForRunIds db
      (((recentRuns db pid 10).take 3).map RunRow.id)).length < 3)]
    rw [hcats3]
    simp [ht]

def dbC5 : Store :=
  { runs := [⟨1, "p", "failed", 30⟩, ⟨2, "p", "failed", 20⟩, ⟨3, "p", "failed", 10⟩],
    evals := [⟨1, some "tool_usage_error", 2⟩, ⟨2, some "tool_usage_error", 3⟩,
              ⟨3, some "tool_usage_error", 1⟩] }

theorem C5_witness :
    ((dbC5.runs.map RunRow.id).Nodup ∧ (dbC5.evals.map EvalRow.run_id).Nodup ∧
      (∀ e ∈ dbC5.evals, e.failure_category ≠ some "")) ∧
    _check_consecutive_failures dbC5 "p" =
      some (Trigger.consecutiveFailures "tool_usage_error" [1, 2, 3] 3) :=
  ⟨⟨by decide, by decide, by decide⟩,
    (C5_consecutive_failures_iff dbC5 "p"
      (Trigger.consecutiveFailures "tool_usage_error" [1, 2, 3] 3)
      (by decide) (by decide) (by decide)).mpr
      ⟨by decide, by decide, "tool_usage_error", by decide, by decide⟩⟩

/-- `_check_consecutive_failures` only ever produces the
consecutive-failures trigger shape. -/
theorem consecutive_shape (db : Store) (pid : String) (t : Trigger)
    (h : _check_consecutive_failures db pid = some t) :
    ∃ c ids n, t = Trigger.consecutiveFailures c ids n := by
  simp only [_check_consecutive_failures] at h
  split at h
  · exact Option.noConfusion h
  · split at h
    · exact Option.noConfusion h
    · split at h
      · exact Option.noConfusion h
      · split at h
        · split at h
          · exact ⟨_, _, _, (Option.some.inj h).symm⟩
          · exact Option.noConfusion h
        · exact Option.noConfusion h

/-- C6: the engine reports a low-score trigger iff the consecutive-failures
check produced nothing (first match wins), the project has 5 recent runs
each covered by an evaluation, and the mean of the 5 scores is strictly
below 5.0; the payload carries the mean, the run ids and the scores.
`hR`/`hE` as in C5. -/
theorem C6_low_score_iff (db : Store) (pid : String) (avg : Rat)
    (ids : List Nat) (scores : List Rat)
    (hR : (db.runs.map RunRow.id).Nodup)
    (hE : (db.evals.map EvalRow.run_id).Nodup) :
    check_triggers db pid = some (Trigger.lowScore avg ids scores) ↔
      (_check_consecutive_failures db pid = none ∧
       5 ≤ (recentRuns db pid 5).length ∧
       ids = (recentRuns db pid 5).map RunRow.id ∧
       (∀ i ∈ ids, ∃ e ∈ db.evals, e.run_id = i) ∧
       scores = (evalsForRunIds db ids).map EvalRow.overall_score ∧
       avg = scores.sum / 5 ∧
       avg < 5) := by
  have hlenle : (recentRuns db pid 5).length ≤ 5 := by
    unfold recentRuns
    rw [List.length_take]
    omega
  have hidnd : ((recentRuns db pid 5).map RunRow.id).Nodup :=
    recentRuns_map_id_nodup db pid 5 hR
  constructor
  · intro h
    unfold check_triggers at h
    split at h
    · rename_i t' hcf
      obtain ⟨c, ids', n, rfl⟩ := consecutive_shape db pid t' hcf
      rw [Option.some.injEq] at h
      exact Trigger.noConfusion h
    · rename_i hcf
      simp only [_check_low_average_score] at h
      split at h
      · exact Option.noConfusion h
      · rename_i hlen5
        split at h
        · exact Option.noConfusion h
        · rename_i hevlen
          split at h
          · rename_i hlt
            rw [Option.some.injEq, Trigger.lowScore.injEq] at h
            obtain ⟨havg, hids, hscores⟩ := h
            have hidslen : ((recentRuns db pid 5).map RunRow.id).length = 5 := by
              rw [List.length_map]
              omega
            have hevle := evalsForRunIds_length_le db
              ((recentRuns db pid 5).map RunRow.id) hE
            have hev5 : (evalsForRunIds db
                ((recentRuns db pid 5).map RunRow.id)).length = 5 := by omega
            have hcov : ∀ i ∈ (recentRuns db pid 5).map RunRow.id,
                ∃ e ∈ db.evals, e.run_id = i := by
              intro i hi
              obtain ⟨e, he, hei⟩ := evals_cover_of_length db _ hE
                (by rw [hidslen, hev5]) i hi
              exact ⟨e, ((mem_evalsForRunIds db _ e).mp he).1, hei⟩
            have hslen : ((evalsForRunIds db
                ((recentRuns db pid 5).map RunRow.id)).map EvalRow.overall_score).length
                = 5 := by
              rw [List.length_map, hev5]
            subst hids
            subst hscores
            subst havg
            exact ⟨hcf, by omega, rfl, hcov, rfl, by rw [hslen]; norm_num, hlt⟩
          · exact Option.noConfusion h
  · rintro ⟨hcf, h5, hids, hcov, hscores, havg, hlt⟩
    have hidslen : ((recentRuns db pid 5).map RunRow.id).length = 5 := by
      rw [List.length_map]
      omega
    have hge := length_le_of_evals_cover db ((recentRuns db pid 5).map RunRow.id)
      hidnd (by rw [← hids]; exact hcov)
    have hevle := evalsForRunIds_length_le db
      ((recentRuns db pid 5).map RunRow.id) hE
    have hev5 : (evalsForRunIds db
        ((recentRuns db pid 5).map RunRow.id)).length = 5 := by omega
    have hslen : ((evalsForRunIds db
        ((recentRuns db pid 5).map RunRow.id)).map EvalRow.overall_score).length
        = 5 := by
      rw [List.length_map, hev5]
    unfold check_triggers
    rw [hcf]
    simp only [_check_low_average_score]
    rw [if_neg (by omega : ¬ (recentRuns db pid 5).length < 5)]
    rw [if_neg (by omega : ¬ (evalsForRunIds db
      ((recentRuns db pid 5).map RunRow.id)).length < 5)]
    rw [if_pos]
    · rw [Option.some.injEq]
      rw [Trigger.lowScore.injEq]
      refine ⟨?_, hids.symm, by rw [hscores, hids]⟩
      rw [havg, hscores, hids, hslen]
      norm_num
    · rw [hslen]
      have : ((evalsForRunIds db ((recentRuns db pid 5).map RunRow.id)).map
          EvalRow.overall_score).sum / ((5 : Nat) : Rat) = avg := by
        rw [havg, hscores, hids]
        norm_num
      rw [this]
      exact hlt

def dbC6 : Store :=
  { runs := [⟨1, "q", "completed", 50⟩, ⟨2, "q", "completed", 40⟩,
             ⟨3, "q", "completed", 30⟩, ⟨4, "q", "completed", 20⟩,
             ⟨5, "q", "completed", 10⟩],
    evals := [⟨1, none, 4⟩, ⟨2, none, 4⟩, ⟨3, none, 4⟩, ⟨4, none, 4⟩, ⟨5, none, 4⟩] }

theorem C6_witness :
    ((dbC6.runs.map RunRow.id).Nodup ∧ (dbC6.evals.map EvalRow.run_id).Nodup) ∧
    check_triggers dbC6 "q" =
      some (Trigger.lowScore 4 [1, 2, 3, 4, 5] [4, 4, 4, 4, 4]) :=
  ⟨⟨by decide, by decide⟩,
    (C6_low_score_iff dbC6 "q" 4 [1, 2, 3, 4, 5] [4, 4, 4, 4, 4]
      (by decide) (by decide)).mpr
      ⟨by decide, by decide, by decide, by decide, by decide,
       by norm_num [List.sum_cons], by norm_num⟩⟩

/-! ## Improvement cooldown (improvement_engine.py, check_cooldown /
run_improvement_check)

`orch_improvement_history` is embedded as a list of rows; timestamps are
integer seconds and `cooldown_hours = 24` becomes `cooldownSeconds`.
`run_improvement_check` consults `check_cooldown` first and returns without
any store write when it reports a cooldown; the remaining improvement
pipeline (trigger detection, suggestion aggregation, application) is
abstracted by a `SweepEnv` outcome, and an applied improvement inserts one
history row whose `applied_at` is the insertion time. -/

def cooldownSeconds : Int := 24 * 3600

structure HistRow where
  project_id : String
  applied_at : Int
deriving DecidableEq

/-- `ImprovementEngine.check_cooldown`: true (improvement allowed) iff no
history row of this project has `applied_at ≥ now − cooldown`.  (On a store
error the source also returns False, which only skips more work and cannot
add rows.) -/
def check_cooldown (history : List HistRow) (pid : String) (now : Int) : Bool :=
  !(history.any fun row =>
    decide (row.project_id = pid) && decide (now - cooldownSeconds ≤ row.applied_at))

/-- Outcomes of the per-project sweep stages that follow the cooldown
check: whether a trigger was detected, whether aggregation produced any
suggestion or missing skill, and whether `apply_improvement` succeeded
(committing and inserting the history row). -/
structure SweepEnv where
  trigger : Option Trigger
  hasSuggestions : Bool
  applySucceeds : Bool
deriving DecidableEq

/-- `ImprovementEngine.run_improvement_check`, reduced to whether a history
row is written for the project: a cooldown skips everything; otherwise a
row is written exactly when a trigger fired, suggestions were nonempty and
the application succeeded. -/
def run_improvement_check (history : List HistRow) (pid : String) (now : Int)
    (env : SweepEnv) : Bool :=
  if check_cooldown history pid now = false then false
  else
    match env.trigger with
    | none => false
    | some _ => if env.hasSuggestions = false then false else env.applySucceeds

/-- Engine state: the improvement-history table plus a monotone wall
clock. -/
structure EngineState where
  history : List HistRow
  clock : Int
deriving DecidableEq

/-- One observable step of the engine: time passes, or one project's sweep
applies an improvement — checked at time `tc`, with the history row
inserted at time `ta ≥ tc` (the assistant subprocess and the git commit run
in between). -/
inductive EngineStep : EngineState → EngineState → Prop
  | tick (s : EngineState) (t : Int) (h : s.clock ≤ t) :
      EngineStep s { history := s.history, clock := t }
  | improve (s : EngineState) (pid : String) (env : SweepEnv) (tc ta : Int)
      (h1 : s.clock ≤ tc) (h2 : tc ≤ ta)
      (h : run_improvement_check s.history pid tc env = true) :
      EngineStep s { history := { project_id := pid, applied_at := ta } :: s.history,
                     clock := ta }

/-- Engine states reachable from an empty improvement history. -/
def EngineReachable (t0 : Int) (s : EngineState) : Prop :=
  Relation.ReflTransGen EngineStep { history := [], clock := t0 } s

theorem run_improvement_check_cooldown (history : List HistRow) (pid : String)
    (now : Int) (env : SweepEnv)
    (h : run_improvement_check history pid now env = true) :
    check_cooldown history pid now = true := by
  unfold run_improvement_check at h
  by_cases hc : check_cooldown history pid now = false
  · rw [if_pos hc] at h
    exact Bool.noConfusion h
  · exact eq_true_of_ne_false hc

theorem engine_inv_step (s s' : EngineState)
    (hinv : (∀ r ∈ s.history, r.applied_at ≤ s.clock) ∧
      s.history.Pairwise (fun a b => a.project_id = b.project_id →
        cooldownSeconds < a.applied_at - b.applied_at))
    (hstep : EngineStep s s') :
    (∀ r ∈ s'.history, r.applied_at ≤ s'.clock) ∧
      s'.history.Pairwise (fun a b => a.project_id = b.project_id →
        cooldownSeconds < a.applied_at - b.applied_at) := by
  obtain ⟨hclock, hpw⟩ := hinv
  cases hstep with
  | tick t h =>
    exact ⟨fun r hr => le_trans (hclock r hr) h, hpw⟩
  | improve pid env tc ta h1 h2 h =>
    have hcd := run_improvement_check_cooldown s.history pid tc env h
    unfold check_cooldown at hcd
    rw [Bool.not_eq_true', List.any_eq_false] at hcd
    constructor
    · intro r hr
      rcases List.mem_cons.mp hr with rfl | hr'
      · exact le_refl _
      · exact le_trans (hclock r hr') (le_trans h1 h2)
    · refine List.pairwise_cons.mpr ⟨?_, hpw⟩
      intro b hb hpid
      have hb' := hcd b hb
      simp only [Bool.and_eq_true, decide_eq_true_eq] at hb'
      have hnot : ¬ (tc - cooldownSeconds ≤ b.applied_at) :=
        fun hq => hb' ⟨hpid.symm, hq⟩
      have hlt : b.applied_at < tc - cooldownSeconds := lt_of_not_le hnot
      have hbc := hclock b hb
      show cooldownSeconds < ta - b.applied_at
      omega

/-- C7: the sweep skips a project whenever some history row lies inside the
24-hour window (`run_improvement_check` writes nothing unless
`check_cooldown` passes), and consequently, starting from an empty history,
any two history rows of the same project are separated by strictly more
than 24 hours — the newer row (earlier in the list) exceeds the older one
by more than `cooldownSeconds`. -/
theorem C7_cooldown_spacing (t0 : Int) (s : EngineState)
    (h : EngineReachable t0 s) :
    s.history.Pairwise (fun a b => a.project_id = b.project_id →
        cooldownSeconds < a.applied_at - b.applied_at) ∧
      (∀ pid now env, check_cooldown s.history pid now = false →
        run_improvement_check s.history pid now env = false) := by
  have hinv : (∀ r ∈ s.history, r.applied_at ≤ s.clock) ∧
      s.history.Pairwise (fun a b => a.project_id = b.project_id →
        cooldownSeconds < a.applied_at - b.applied_at) := by
    induction h with
    | refl => exact ⟨fun r hr => absurd hr (List.not_mem_nil r), List.Pairwise.nil⟩
    | tail _ hstep ih => exact engine_inv_step _ _ ih hstep
  refine ⟨hinv.2, ?_⟩
  intro pid now env hc
  unfold run_improvement_check
  rw [if_pos hc]

def sweepEnvW : SweepEnv :=
  { trigger := some (Trigger.consecutiveFailures "tool_usage_error" [1, 2, 3] 3),
    hasSuggestions := true, applySucceeds := true }

theorem C7_witness :
    (([⟨"p", 86401⟩, ⟨"p", 0⟩] : List HistRow).Pairwise
      (fun a b => a.project_id = b.project_id →
        cooldownSeconds < a.applied_at - b.applied_at)) ∧
    run_improvement_check [⟨"p", 86401⟩, ⟨"p", 0⟩] "p" 90000 sweepEnvW = false :=
  ⟨(C7_cooldown_spacing 0 ⟨[⟨"p", 86401⟩, ⟨"p", 0⟩], 86401⟩
      (Relation.ReflTransGen.tail
        (Relation.ReflTransGen.tail Relation.ReflTransGen.refl
          (EngineStep.improve ⟨[], 0⟩ "p" sweepEnvW 0 0 (by decide) (by decide)
            (by decide)))
        (EngineStep.improve ⟨[⟨"p", 0⟩], 0⟩ "p" sweepEnvW 86401 86401 (by decide)
          (by decide) (by decide)))).1,
   (C7_cooldown_spacing 0 ⟨[⟨"p", 86401⟩, ⟨"p", 0⟩], 86401⟩
      (Relation.ReflTransGen.tail
        (Relation.ReflTransGen.tail Relation.ReflTransGen.refl
          (EngineStep.improve ⟨[], 0⟩ "p" sweepEnvW 0 0 (by decide) (by decide)
            (by decide)))
        (EngineStep.improve ⟨[⟨"p", 0⟩], 0⟩ "p" sweepEnvW 86401 86401 (by decide)
          (by decide) (by decide)))).2 "p" 90000 sweepEnvW (by decide)⟩

/-! ## Improvement application (improvement_engine.py, apply_improvement)

The external actions of `apply_improvement` are collected into an event
trace.  `git checkout -b`, `git add .` and `git commit` run with
`check=True`, so their failure raises `CalledProcessError`, which the
function-level handler turns into `return False` — without reaching any
further statement.  Only the explicit `returncode != 0` branch after the
assistant subprocess runs `git checkout -` and `git branch -D`. -/

inductive GitEvent where
  | checkoutNewBranch
  | runAssistant
  | checkoutPrevious
  | deleteBranch
  | stageAll
  | commit
  | recordHistory
deriving DecidableEq

inductive ClaudeOutcome where
  | exited (code : Int)
  | timedOut
deriving DecidableEq

/-- Outcomes of the external calls made by `apply_improvement`, in the
order the source issues them. -/
structure ImproveEnv where
  dirExists : Bool
  checkoutNewFails : Bool
  claude : ClaudeOutcome
  stageFails : Bool
  commitFails : Bool
deriving DecidableEq

/-- `ImprovementEngine.apply_improvement`: the returned success flag and
the trace of external actions performed. -/
def apply_improvement (env : ImproveEnv) : Bool × List GitEvent :=
  if env.dirExists = false then (false, [])
  else
    let t1 := [GitEvent.checkoutNewBranch]
    if env.checkoutNewFails then (false, t1)
    else
      match env.claude with
      | .timedOut => (false, t1 ++ [GitEvent.runAssistant])
      | .exited code =>
        let t2 := t1 ++ [GitEvent.runAssistant]
        if code ≠ 0 then
          (false, t2 ++ [GitEvent.checkoutPrevious, GitEvent.deleteBranch])
        else
          let t3 := t2 ++ [GitEvent.stageAll]
          if env.stageFails then (false, t3)
          else
            let t4 := t3 ++ [GitEvent.commit]
            if env.commitFails then (false, t4)
            else (true, t4 ++ [GitEvent.recordHistory])

/-- The only situation in which the rollback pair (`git checkout -`,
`git branch -D`) runs: the assistant subprocess was reached and exited
non-zero. -/
def assistantExitedNonzero (env : ImproveEnv) : Bool :=
  env.dirExists && !env.checkoutNewFails &&
    (match env.claude with
     | .exited code => decide (code ≠ 0)
     | .timedOut => false)

def envC8 : ImproveEnv :=
  { dirExists := true, checkoutNewFails := false, claude := .exited 0,
    stageFails := true, commitFails := false }

/-- C8 counterexample: when `git add .` fails (a source-control failure
during improvement application), the function aborts with trace
`[checkout -b, assistant, add]` — the previous branch is NOT restored and
the created branch is NOT deleted, refuting the claimed cleanup.  (The
claim's no-history-row part does hold; the conjunction is refuted by its
first component.) -/
theorem C8_counterexample :
    ¬ (GitEvent.checkoutPrevious ∈ (apply_improvement envC8).2 ∧
       GitEvent.deleteBranch ∈ (apply_improvement envC8).2 ∧
       GitEvent.recordHistory ∉ (apply_improvement envC8).2) := by
  decide

/-- C8 amended: whenever a source-control operation fails during
improvement application (branch creation, staging, or commit), the
improvement is reported not-applied and no ImprovementHistory row is
written; but the branch cleanup (restore the previous branch, delete the
auto-improvement branch) happens only when the assistant subprocess itself
exits non-zero — a git failure leaves the branch state as it is. -/
theorem C8_amended_source_control_failure (env : ImproveEnv)
    (h : env.checkoutNewFails = true ∨ env.stageFails = true ∨ env.commitFails = true) :
    (apply_improvement env).1 = false ∧
    GitEvent.recordHistory ∉ (apply_improvement env).2 ∧
    (GitEvent.checkoutPrevious ∈ (apply_improvement env).2 ↔
      assistantExitedNonzero env = true) ∧
    (GitEvent.deleteBranch ∈ (apply_improvement env).2 ↔
      assistantExitedNonzero env = true) := by
  obtain ⟨de, cn, cl, st, cm⟩ := env
  cases de
  · simp [apply_improvement, assistantExitedNonzero]
  · cases cn
    · cases cl with
      | timedOut => simp [apply_improvement, assistantExitedNonzero]
      | exited code =>
        by_cases hc : code = 0
        · subst hc
          cases st
          · cases cm
            · rcases h with h | h | h <;> exact Bool.noConfusion h
            · simp [apply_improvement, assistantExitedNonzero]
          · simp [apply_improvement, assistantExitedNonzero]
        · simp [apply_improvement, assistantExitedNonzero, hc]
    · simp [apply_improvement, assistantExitedNonzero]

theorem C8_witness :
    (envC8.checkoutNewFails = true ∨ envC8.stageFails = true ∨
      envC8.commitFails = true) ∧
    ((apply_improvement envC8).1 = false ∧
     GitEvent.recordHistory ∉ (apply_improvement envC8).2 ∧
     (GitEvent.checkoutPrevious ∈ (apply_improvement envC8).2 ↔
       assistantExitedNonzero envC8 = true) ∧
     (GitEvent.deleteBranch ∈ (apply_improvement envC8).2 ↔
       assistantExitedNonzero envC8 = true)) :=
  ⟨Or.inr (Or.inl rfl),
   C8_amended_source_control_failure envC8 (Or.inr (Or.inl rfl))⟩
